import Mathlib

/-!
# Verification of the armory-drive-log core against its specification

Shallow embedding of the transparency-log verification core of
`armory-drive-log`:

* the strict checkpoint codec (`api/checkpoint.go`, `Checkpoint.Unmarshal`
  and the `"{origin}\n{size}\n{base64(root)}\n"` serialised form);
* the proof-bundle verifier (`api/verify`, `Bundle`), embedded over an
  abstract cryptographic environment (signed-note opening, RFC-6962
  hashing and JSON release parsing are external collaborators);
* the monitor catch-up loop (`cmd/monitor/main.go`, `Monitor.From`),
  likewise embedded over an abstract fetch/verify environment.

Raw bytes are modelled as `List Nat` (each entry a byte value), machine
integers as `Nat` with explicit bounds where the code enforces them.
-/

namespace ArmoryDriveLog

/-! ## Byte-level helpers: splitting, decimal parsing, base64 -/

/-- Split off everything up to the first occurrence of the byte `sep`:
returns `some (before, after)`, or `none` when `sep` does not occur.
Helper used to embed Go's `bytes.SplitN`. -/
def splitOnce (sep : Nat) : List Nat → Option (List Nat × List Nat)
  | [] => none
  | c :: cs =>
    if c = sep then some ([], cs)
    else (splitOnce sep cs).map (fun p => (c :: p.1, p.2))

/-- Embedding of Go `bytes.SplitN(data, []byte{sep}, n)` for `n ≥ 1`:
split around at most `n - 1` instances of `sep`, the final element being
the unsplit remainder.  (For `n = 0` Go returns nil; the code under
verification only calls it with `n = 4`.) -/
def splitN (sep : Nat) : Nat → List Nat → List (List Nat)
  | 0, _ => []
  | 1, data => [data]
  | n + 2, data =>
    match splitOnce sep data with
    | none => [data]
    | some (pre, post) => pre :: splitN sep (n + 1) post

/-- Is the byte an ASCII decimal digit `'0'..'9'`? -/
def isDigit (c : Nat) : Bool := 48 ≤ c && c ≤ 57

/-- Numeric value of a big-endian ASCII digit string. -/
def digitsToNat (s : List Nat) : Nat :=
  s.foldl (fun acc c => acc * 10 + (c - 48)) 0

/-- Embedding of Go `strconv.ParseUint(s, 10, 64)`: a non-empty,
all-decimal-digit string whose value fits in an unsigned 64-bit integer;
anything else (empty, sign characters, other bytes, overflow) errors. -/
def parseUint64 (s : List Nat) : Option Nat :=
  if s.isEmpty then none
  else if s.all isDigit then
    let v := digitsToNat s
    if v < 2 ^ 64 then some v else none
  else none

/-- Value of a standard-base64 alphabet byte (`A-Z a-z 0-9 + /`), or
`none` for every byte outside the alphabet (including `'='`). -/
def b64Val (c : Nat) : Option Nat :=
  if 65 ≤ c ∧ c ≤ 90 then some (c - 65)
  else if 97 ≤ c ∧ c ≤ 122 then some (c - 97 + 26)
  else if 48 ≤ c ∧ c ≤ 57 then some (c - 48 + 52)
  else if c = 43 then some 62
  else if c = 47 then some 63
  else none

/-- Standard-base64 alphabet byte for a 6-bit value. -/
def b64Char (v : Nat) : Nat :=
  if v < 26 then 65 + v
  else if v < 52 then 97 + (v - 26)
  else if v < 62 then 48 + (v - 52)
  else if v = 62 then 43
  else 47

/-- Decode a base64 string as a sequence of 4-byte quanta, with strict
`'='` padding allowed only at the very end (Go `encoding/base64`,
`StdEncoding`).  Input length must be a multiple of 4. -/
def b64DecodeGroups : List Nat → Option (List Nat)
  | [] => some []
  | c1 :: c2 :: c3 :: c4 :: rest =>
    match b64Val c1, b64Val c2 with
    | some v1, some v2 =>
      if c3 = 61 then
        if c4 = 61 ∧ rest = [] then some [v1 * 4 + v2 / 16]
        else none
      else
        match b64Val c3 with
        | some v3 =>
          if c4 = 61 then
            if rest = [] then some [v1 * 4 + v2 / 16, (v2 % 16) * 16 + v3 / 4]
            else none
          else
            match b64Val c4 with
            | some v4 =>
              (b64DecodeGroups rest).map
                (fun tail => (v1 * 4 + v2 / 16) :: ((v2 % 16) * 16 + v3 / 4) ::
                  ((v3 % 4) * 64 + v4) :: tail)
            | none => none
        | none => none
    | _, _ => none
  | _ => none

/-- Embedding of Go `base64.StdEncoding.DecodeString`: newline bytes
(`\r`, `\n`) are ignored, then the input is decoded as strictly padded
standard base64. -/
def decodeBase64Std (s : List Nat) : Option (List Nat) :=
  b64DecodeGroups (s.filter (fun c => c != 10 && c != 13))

/-- Encode bytes as standard base64, 3 input bytes per 4-character
quantum, with mandatory `'='` padding (Go
`base64.StdEncoding.EncodeToString`). -/
def b64EncodeGroups : List Nat → List Nat
  | b1 :: b2 :: b3 :: rest =>
    b64Char (b1 / 4) :: b64Char ((b1 % 4) * 16 + b2 / 16) ::
      b64Char ((b2 % 16) * 4 + b3 / 64) :: b64Char (b3 % 64) ::
      b64EncodeGroups rest
  | [b1, b2] => [b64Char (b1 / 4), b64Char ((b1 % 4) * 16 + b2 / 16), b64Char ((b2 % 16) * 4), 61]
  | [b1] => [b64Char (b1 / 4), b64Char ((b1 % 4) * 16), 61, 61]
  | [] => []

/-- ASCII decimal digits of `n`, most significant first; fuel-driven so
that it is structurally recursive (`fuel > n` suffices). -/
def decDigitsAux : Nat → Nat → List Nat
  | 0, _ => []
  | fuel + 1, n =>
    if n < 10 then [48 + n]
    else decDigitsAux fuel (n / 10) ++ [48 + n % 10]

/-- ASCII decimal representation of `n` (Go `fmt.Sprintf("%d", n)`). -/
def decDigits (n : Nat) : List Nat := decDigitsAux (n + 1) n

/-! ## Checkpoint codec (`api/checkpoint.go`) -/

/-- `api.Checkpoint`: a minimal log checkpoint.  `Size` is a Go `uint64`;
`Unmarshal` enforces `Size < 2^64`. -/
structure Checkpoint where
  Origin : List Nat
  Size : Nat
  Hash : List Nat
deriving DecidableEq, Repr

/-- Error labels for the distinct `return` sites of
`Checkpoint.Unmarshal`. -/
inductive CheckpointErr where
  | tooFewNewlines
  | emptyOrigin
  | invalidSize
  | invalidHash
  | trailingData
deriving DecidableEq, Repr

/-- Embedding of `(*Checkpoint).Unmarshal(data)`.  The Go method mutates
its receiver and returns an error; here the first component of the result
is the receiver afterwards and the second is the returned error.
`bytes.SplitN(data, "\n", 4)` returns at most 4 parts, so the wildcard
branch is exactly Go's `len(l) < 4` check. -/
def Checkpoint.Unmarshal (c : Checkpoint) (data : List Nat) :
    Checkpoint × Option CheckpointErr :=
  match splitN 10 4 data with
  | [l0, l1, l2, l3] =>
    if l0 = [] then (c, some .emptyOrigin)
    else
      match parseUint64 l1 with
      | none => (c, some .invalidSize)
      | some size =>
        match decodeBase64Std l2 with
        | none => (c, some .invalidHash)
        | some h =>
          if 0 < l3.length then (c, some .trailingData)
          else ({ Origin := l0, Size := size, Hash := h }, none)
  | _ => (c, some .tooFewNewlines)

/-- Serialised checkpoint form `"{origin}\n{size}\n{base64(root)}\n"`
(`makeCheckpoint` in `api/verify/verify_test.go`; also the format the
`Unmarshal` documentation describes). -/
def marshalCheckpoint (c : Checkpoint) : List Nat :=
  c.Origin ++ [10] ++ decDigits c.Size ++ [10] ++ b64EncodeGroups c.Hash ++ [10]

/-! ## Data model (`api/log_entries.go`, `api/proof_bundle.go`) -/

/-- `api.FirmwareRelease`.  Strings and digests are byte lists; the two
Go maps are modelled as association lists with the map's key-uniqueness
left implicit (lookups take the first binding). -/
structure FirmwareRelease where
  Description : List Nat
  PlatformID : List Nat
  Revision : List Nat
  ArtifactSHA256 : List (List Nat × List Nat)
  SourceURL : List Nat
  SourceSHA256 : List Nat
  ToolChain : List Nat
  BuildArgs : List (List Nat × List Nat)
deriving DecidableEq, Repr

/-- `api.ProofBundle` (current, full-leaf-list shape). -/
structure ProofBundle where
  NewCheckpoint : List Nat
  FirmwareRelease : List Nat
  LeafHashes : List (List Nat)
deriving DecidableEq, Repr

/-- Go map lookup `m[name]` over the association-list model: the value
bound to the first matching key, if any. -/
def lookupBytes : List (List Nat × List Nat) → List Nat → Option (List Nat)
  | [], _ => none
  | (k, v) :: rest, name => if k = name then some v else lookupBytes rest name

/-! ## Merkle root (trillian `merkle/compact` + `rfc6962` hasher)

The verifier appends leaf hashes one at a time into a compact range
anchored at index 0 and reads the running root after each append
(`tree.Append` / `tree.GetRootHash` / `tree.End` in
`api/verify`'s `Bundle`).  The compact-range root of `[0, n)` is the
RFC-6962 Merkle tree hash of the `n` appended leaf hashes: `MTH` of one
entry is that entry (the entries are already leaf hashes), and `MTH` of
`n > 1` entries splits at the largest power of two smaller than `n`.
For an anchored-at-0 range neither `Append` nor `GetRootHash` can fail,
so the loop's two unreachable error returns are not modelled. -/

/-- Largest power of two strictly smaller than `n`, for `n ≥ 2`
(fuel-driven doubling). -/
def maxPow2LtAux (n : Nat) : Nat → Nat → Nat
  | 0, p => p
  | fuel + 1, p => if 2 * p < n then maxPow2LtAux n fuel (2 * p) else p

/-- Largest power of two strictly smaller than `n` (for `n ≥ 2`). -/
def maxPow2Lt (n : Nat) : Nat := maxPow2LtAux n n 1

/-- RFC-6962 Merkle tree hash of a list of leaf hashes, parametrised by
the children hasher; fuel-driven (`fuel ≥ hs.length` suffices). -/
def merkleRootAux (hc : List Nat → List Nat → List Nat) :
    Nat → List (List Nat) → List Nat
  | _, [] => []
  | _, [h] => h
  | 0, _ => []
  | fuel + 1, hs =>
    let k := maxPow2Lt hs.length
    hc (merkleRootAux hc fuel (hs.take k)) (merkleRootAux hc fuel (hs.drop k))

/-- RFC-6962 Merkle tree hash of a list of leaf hashes: the value of
`tree.GetRootHash` after appending exactly these hashes into a compact
range anchored at 0. -/
def merkleRoot (hc : List Nat → List Nat → List Nat) (hs : List (List Nat)) : List Nat :=
  merkleRootAux hc hs.length hs

/-! ## Proof-bundle verifier (`api/verify`, `Bundle`) -/

/-- The cryptographic collaborators `Bundle` calls into, left abstract:
`noteOpen msg v` is `note.Open(msg, note.VerifierList(v))` returning the
note text on success (verifiers are opaque identifiers); `hashLeaf` and
`hashChildren` are the RFC-6962 SHA-256 hasher; `parseRelease` is
`json.Unmarshal` of a note body into a `FirmwareRelease`. -/
structure CryptoEnv where
  noteOpen : List Nat → Nat → Option (List Nat)
  hashLeaf : List Nat → List Nat
  hashChildren : List Nat → List Nat → List Nat
  parseRelease : List Nat → Option FirmwareRelease

/-- Error labels for the distinct `return` sites of `Bundle`. -/
inductive BundleErr where
  | badNewCheckpointSig
  | badNewCheckpointParse
  | wrongOrigin
  | invalidLeafCount
  | consistencyOldCP
  | consistencyNewCP
  | inclusionManifest
  | badReleaseSig
  | badReleaseParse
  | missingArtifact (name : List Nat)
  | wrongArtifactHash (name : List Nat)
deriving DecidableEq, Repr

/-- State of `Bundle`'s reconstruction loop: the leaf hashes appended
into the compact range so far (so `appended.length` is `tree.End()`)
plus the three found-flags. -/
structure RangeState where
  appended : List (List Nat)
  manifestFound : Bool
  oldCPFound : Bool
  newCPFound : Bool
deriving DecidableEq, Repr

/-- One iteration of `Bundle`'s loop body: append the leaf hash, read
the running root `r`, then update the three flags exactly as the code
does (`manifestFound` latches on first match; the two checkpoint flags
are assigned only when `tree.End()` equals the respective size). -/
def bundleStep (hc : List Nat → List Nat → List Nat) (manifestHash : List Nat)
    (oldCP newCP : Checkpoint) (s : RangeState) (leafHash : List Nat) : RangeState :=
  let appended := s.appended ++ [leafHash]
  let r := merkleRoot hc appended
  { appended := appended
    manifestFound := if !s.manifestFound then decide (leafHash = manifestHash) else s.manifestFound
    oldCPFound := if appended.length = oldCP.Size then decide (r = oldCP.Hash) else s.oldCPFound
    newCPFound := if appended.length = newCP.Size then decide (r = newCP.Hash) else s.newCPFound }

/-- The whole reconstruction loop of `Bundle`, started from the empty
range and all flags `false`. -/
def bundleScan (hc : List Nat → List Nat → List Nat) (manifestHash : List Nat)
    (oldCP newCP : Checkpoint) (leafHashes : List (List Nat)) : RangeState :=
  leafHashes.foldl (bundleStep hc manifestHash oldCP newCP)
    ⟨[], false, false, false⟩

/-- Modelled from the spec: the expected-origin check on the opened new
checkpoint (`require checkpoint.origin == expected_origin`, any failure
→ `BadCheckpoint`).  The check is exercised by `TestBundle` (which
passes `testLogOrigin` as `Bundle`'s sixth argument) but the line itself
is not among the provided source files. -/
def originMatches (newCP : Checkpoint) (logOrigin : List Nat) : Bool :=
  decide (newCP.Origin = logOrigin)

/-- The artifact-commitment loop at the end of `Bundle`: every expected
`(artifact, hash)` pair must be present in the manifest's
`ArtifactSHA256` map with a byte-identical hash. -/
def checkArtifacts (expected : List (List Nat × List Nat))
    (m : List (List Nat × List Nat)) : Option BundleErr :=
  match expected with
  | [] => none
  | (name, want) :: rest =>
    match lookupBytes m name with
    | none => some (.missingArtifact name)
    | some h => if want ≠ h then some (.wrongArtifactHash name) else checkArtifacts rest m

/-- Embedding of `verify.Bundle(pb, oldCP, logSigV, frSigV,
artifactHashes, logOrigin)`: `none` is acceptance, `some e` the error
returned.  `artifactHashes` (a Go map) is modelled as an association
list; map iteration order only selects which failing artifact is
reported first, never whether `Bundle` accepts.  The `originMatches`
check is the spec-modelled step 1 origin requirement; everything else
follows the source (strict `tree.End() == oldCP.Size` variant). -/
def Bundle (env : CryptoEnv) (pb : ProofBundle) (oldCP : Checkpoint)
    (logSigV frSigV : Nat) (artifactHashes : List (List Nat × List Nat))
    (logOrigin : List Nat) : Option BundleErr :=
  match env.noteOpen pb.NewCheckpoint logSigV with
  | none => some .badNewCheckpointSig
  | some newCPText =>
    match Checkpoint.Unmarshal ⟨[], 0, []⟩ newCPText with
    | (_, some _) => some .badNewCheckpointParse
    | (newCP, none) =>
      if !originMatches newCP logOrigin then some .wrongOrigin
      else if pb.LeafHashes.length ≠ newCP.Size then some .invalidLeafCount
      else
        let manifestHash := env.hashLeaf pb.FirmwareRelease
        let final := bundleScan env.hashChildren manifestHash oldCP newCP pb.LeafHashes
        if !final.oldCPFound && decide (0 < oldCP.Size) then some .consistencyOldCP
        else if !final.newCPFound then some .consistencyNewCP
        else if !final.manifestFound then some .inclusionManifest
        else
          match env.noteOpen pb.FirmwareRelease frSigV with
          | none => some .badReleaseSig
          | some frText =>
            match env.parseRelease frText with
            | none => some .badReleaseParse
            | some fr => checkArtifacts artifactHashes fr.ArtifactSHA256

/-! ## Monitor catch-up loop (`cmd/monitor/main.go`, `Monitor.From`) -/

/-- Outcome of `note.Open` on a fetched leaf, as `From` distinguishes
its failures: success with the note text, an `UnverifiedNoteError` whose
`UnverifiedSigs` is non-empty (reported as "unknown signer ⟨name⟩"), or
any other open failure. -/
inductive NoteOpenResult where
  | opened (text : List Nat)
  | unverifiedSigs (name : List Nat)
  | failed (e : Nat)
deriving DecidableEq, Repr

/-- Error labels for the distinct `return` sites of `Monitor.From`;
opaque collaborator errors are carried as numeric codes. -/
inductive MonErr where
  | proofBuilder (e : Nat)
  | getLeaf (i : Nat) (e : Nat)
  | inclusionProof (i : Nat) (e : Nat)
  | verifyInclusion (i : Nat) (e : Nat)
  | unknownSigner (i : Nat) (name : List Nat)
  | openNote (i : Nat) (e : Nat)
  | unmarshalRelease (i : Nat) (e : Nat)
  | handler (e : Nat)
  | writeFile (e : Nat)
deriving DecidableEq, Repr

/-- The external collaborators `Monitor.From` calls into, left abstract:
the proof builder construction, the leaf fetcher, the proof builder's
inclusion-proof fetcher, trillian's `VerifyInclusionProof`, `note.Open`
under the release verifiers, `json.Unmarshal` into a `FirmwareRelease`,
the pluggable handler, and the state-file write. -/
structure MonitorEnv where
  newProofBuilder : Except Nat Unit
  getLeaf : Nat → Except Nat (List Nat)
  inclusionProof : Nat → Except Nat (List (List Nat))
  verifyInclusion : Nat → Nat → List (List Nat) → List Nat → List Nat → Except Nat Unit
  hashLeaf : List Nat → List Nat
  noteOpen : List Nat → NoteOpenResult
  parseRelease : List Nat → Except Nat FirmwareRelease
  handler : Nat → FirmwareRelease → Except Nat Unit
  writeFile : List Nat → Except Nat Unit

/-- The monitor's state relevant to `From`: the tracker's parsed
latest-consistent checkpoint, its raw signed bytes, and the state-file
path is folded into `MonitorEnv.writeFile`. -/
structure Monitor where
  latestConsistent : Checkpoint
  latestConsistentRaw : List Nat

/-- One iteration of `From`'s loop at index `i`: fetch the leaf, hash
it, fetch and verify its inclusion proof, open the leaf as a signed
note (distinguishing the unknown-signer case), parse the body as a
`FirmwareRelease`, and invoke the handler.  The first failure is
returned. -/
def leafStep (env : MonitorEnv) (fromCP : Checkpoint) (i : Nat) : Except MonErr Unit :=
  match env.getLeaf i with
  | .error e => .error (.getLeaf i e)
  | .ok rawLeaf =>
    let hash := env.hashLeaf rawLeaf
    match env.inclusionProof i with
    | .error e => .error (.inclusionProof i e)
    | .ok ip =>
      match env.verifyInclusion i fromCP.Size ip fromCP.Hash hash with
      | .error e => .error (.verifyInclusion i e)
      | .ok _ =>
        match env.noteOpen rawLeaf with
        | .unverifiedSigs name => .error (.unknownSigner i name)
        | .failed e => .error (.openNote i e)
        | .opened text =>
          match env.parseRelease text with
          | .error e => .error (.unmarshalRelease i e)
          | .ok release =>
            match env.handler i release with
            | .error e => .error (.handler e)
            | .ok _ => .ok ()

/-- `From`'s `for i := start; i < fromCP.Size; i++` loop, fuel-driven
(`fuel` is the number of remaining indices): runs `leafStep` at
`i, i+1, …` and stops at the first error. -/
def fromLoop (env : MonitorEnv) (fromCP : Checkpoint) : Nat → Nat → Except MonErr Unit
  | 0, _ => .ok ()
  | fuel + 1, i =>
    match leafStep env fromCP i with
    | .error e => .error e
    | .ok _ => fromLoop env fromCP fuel (i + 1)

/-- Embedding of `(*Monitor).From(ctx, start)`.  The first component is
the error returned (`none` on success); the second records the bytes
handed to `ioutil.WriteFile` for the state file, or `none` when the
write was never reached.  The write happens only as the very last
statement, after the whole loop succeeded; a failing write surfaces as
`From`'s returned error with the write attempt recorded. -/
def Monitor.From (m : Monitor) (env : MonitorEnv) (start : Nat) :
    Option MonErr × Option (List Nat) :=
  match env.newProofBuilder with
  | .error e => (some (.proofBuilder e), none)
  | .ok _ =>
    match fromLoop env m.latestConsistent (m.latestConsistent.Size - start) start with
    | .error e => (some e, none)
    | .ok _ =>
      match env.writeFile m.latestConsistentRaw with
      | .error e => (some (.writeFile e), some m.latestConsistentRaw)
      | .ok _ => (none, some m.latestConsistentRaw)

/-! ## Concrete evaluation fixtures

Closed instances of the abstract environments, used to evaluate the
verified functions at concrete inputs. -/

/-- A firmware release with every field empty (opaque parse result). -/
def emptyRelease : FirmwareRelease := ⟨[], [], [], [], [], [], [], []⟩

/-- Trivial crypto environment for concrete evaluation: a note's body is
the note itself, leaf hashing is the identity, children hashing is
concatenation, and every release body parses to `emptyRelease`. -/
def testEnv : CryptoEnv :=
  { noteOpen := fun msg _ => some msg
    hashLeaf := fun l => l
    hashChildren := fun a b => a ++ b
    parseRelease := fun _ => some emptyRelease }

/-- `testEnv`, with releases parsing to a manifest that commits to the
two artifacts `[1] ↦ [5]` and `[2] ↦ [6]`. -/
def testEnvArtifacts : CryptoEnv :=
  { testEnv with
    parseRelease := fun _ =>
      some { emptyRelease with ArtifactSHA256 := [([1], [5]), ([2], [6])] } }

/-- Serialised checkpoint `(origin "A", size 2, root [1, 7])`. -/
def cpText2 : List Nat := marshalCheckpoint ⟨[65], 2, [1, 7]⟩

/-- Serialised checkpoint `(origin "A", size 0, root [])`. -/
def cpText0 : List Nat := marshalCheckpoint ⟨[65], 0, []⟩

/-- A proof bundle that `testEnv` accepts against `oldCP1` (under
`testEnv`'s hashers the running roots are `[1]` then `[1, 7]`). -/
def pbGood : ProofBundle :=
  { NewCheckpoint := cpText2, FirmwareRelease := [7], LeafHashes := [[1], [7]] }

/-- `pbGood` with a firmware release whose leaf hash occurs nowhere. -/
def pbNoManifest : ProofBundle := { pbGood with FirmwareRelease := [9] }

/-- `pbGood` with a truncated leaf-hash list. -/
def pbShort : ProofBundle := { pbGood with LeafHashes := [[1]] }

/-- A bundle whose checkpoint commits to size 0. -/
def pbEmpty : ProofBundle :=
  { NewCheckpoint := cpText0, FirmwareRelease := [7], LeafHashes := [] }

/-- Old checkpoint of size 1 whose root is the first running root. -/
def oldCP1 : Checkpoint := ⟨[], 1, [1]⟩

/-- The zero checkpoint: no prior knowledge. -/
def oldCP0 : Checkpoint := ⟨[], 0, []⟩

/-- Monitor environment in which every step succeeds except the handler,
which always fails with code 7. -/
def monEnvHandlerFails : MonitorEnv :=
  { newProofBuilder := .ok ()
    getLeaf := fun _ => .ok [3]
    inclusionProof := fun _ => .ok []
    verifyInclusion := fun _ _ _ _ _ => .ok ()
    hashLeaf := fun l => l
    noteOpen := fun _ => .opened [4]
    parseRelease := fun _ => .ok emptyRelease
    handler := fun _ _ => .error 7
    writeFile := fun _ => .ok () }

/-- A monitor tracking a checkpoint of size 1. -/
def monitor1 : Monitor := ⟨⟨[65], 1, [1]⟩, [9]⟩

/-! ## Helper lemmas: splitting -/

theorem splitOnce_append (sep : Nat) :
    ∀ pre rest, sep ∉ pre → splitOnce sep (pre ++ sep :: rest) = some (pre, rest)
  | [], rest, _ => by simp [splitOnce]
  | c :: cs, rest, h => by
    have hc : c ≠ sep := fun hcs => h (hcs ▸ List.mem_cons_self c cs)
    have ih := splitOnce_append sep cs rest (fun hm => h (List.mem_cons_of_mem c hm))
    simp [splitOnce, hc, ih]

theorem splitN_cons_of_sep (sep n : Nat) (pre rest : List Nat) (h : sep ∉ pre) :
    splitN sep (n + 2) (pre ++ sep :: rest) = pre :: splitN sep (n + 1) rest := by
  simp [splitN, splitOnce_append sep pre rest h]

/-! ## Helper lemmas: decimal digits -/

theorem decDigitsAux_mem : ∀ fuel n, n < fuel →
    ∀ ch ∈ decDigitsAux fuel n, 48 ≤ ch ∧ ch ≤ 57
  | 0, n, h => by omega
  | fuel + 1, n, h => by
    by_cases h10 : n < 10
    · intro ch hch
      simp [decDigitsAux, h10] at hch
      omega
    · intro ch hch
      have hdiv : n / 10 < fuel := by
        have : n / 10 < n := Nat.div_lt_self (by omega) (by omega)
        omega
      simp [decDigitsAux, h10] at hch
      rcases hch with hch | hch
      · exact decDigitsAux_mem fuel (n / 10) hdiv ch hch
      · have : n % 10 < 10 := Nat.mod_lt _ (by omega)
        omega

theorem decDigitsAux_ne_nil : ∀ fuel n, n < fuel → decDigitsAux fuel n ≠ []
  | 0, n, h => by omega
  | fuel + 1, n, _ => by
    by_cases h10 : n < 10 <;> simp [decDigitsAux, h10]

theorem decDigitsAux_foldl : ∀ fuel n, n < fuel → ∀ a,
    List.foldl (fun acc c => acc * 10 + (c - 48)) a (decDigitsAux fuel n) =
      a * 10 ^ (decDigitsAux fuel n).length + n
  | 0, n, h => by omega
  | fuel + 1, n, h => by
    intro a
    by_cases h10 : n < 10
    · simp only [decDigitsAux, if_pos h10, List.foldl_cons, List.foldl_nil,
        List.length_cons, List.length_nil]
      ring_nf
      omega
    · have hdiv : n / 10 < fuel := by
        have : n / 10 < n := Nat.div_lt_self (by omega) (by omega)
        omega
      have ih := decDigitsAux_foldl fuel (n / 10) hdiv a
      simp only [decDigitsAux, if_neg h10, List.foldl_append, ih, List.foldl_cons,
        List.foldl_nil, List.length_append, List.length_cons, List.length_nil]
      have hmod : n % 10 < 10 := Nat.mod_lt _ (by omega)
      have hpow : 10 ^ ((decDigitsAux fuel (n / 10)).length + 1) =
          10 ^ (decDigitsAux fuel (n / 10)).length * 10 := by ring
      rw [hpow]
      have := Nat.div_add_mod n 10
      ring_nf
      omega

theorem parseUint64_decDigits (n : Nat) (h : n < 2 ^ 64) :
    parseUint64 (decDigits n) = some n := by
  have hlt : n < n + 1 := Nat.lt_succ_self n
  have hne := decDigitsAux_ne_nil (n + 1) n hlt
  have hmem := decDigitsAux_mem (n + 1) n hlt
  have hfold := decDigitsAux_foldl (n + 1) n hlt 0
  unfold parseUint64 decDigits
  rw [if_neg (by simpa [List.isEmpty_iff] using hne)]
  have hall : (decDigitsAux (n + 1) n).all isDigit = true := by
    rw [List.all_eq_true]
    intro ch hch
    have := hmem ch hch
    simp [isDigit]
    omega
  rw [if_pos hall]
  have : digitsToNat (decDigitsAux (n + 1) n) = n := by
    unfold digitsToNat
    rw [hfold]
    ring_nf
  simp only [this]
  rw [if_pos h]

theorem decDigits_not_newline (n : Nat) : (10 : Nat) ∉ decDigits n := by
  intro hmem
  have := decDigitsAux_mem (n + 1) n (Nat.lt_succ_self n) 10 hmem
  omega

/-! ## Helper lemmas: base64 -/

theorem b64Val_b64Char : ∀ v, v < 64 → b64Val (b64Char v) = some v := by decide

theorem b64Char_not_special : ∀ v, v < 64 →
    b64Char v ≠ 61 ∧ b64Char v ≠ 10 ∧ b64Char v ≠ 13 := by decide

theorem b64EncodeGroups_mem : ∀ bs, (∀ b ∈ bs, b < 256) →
    ∀ ch ∈ b64EncodeGroups bs, ch = 61 ∨ ∃ v, v < 64 ∧ ch = b64Char v
  | [], _ => by simp [b64EncodeGroups]
  | [b1], h => by
    have hb1 : b1 < 256 := h b1 (by simp)
    intro ch hch
    simp [b64EncodeGroups] at hch
    rcases hch with hch | hch | hch
    · exact Or.inr ⟨b1 / 4, by omega, hch⟩
    · exact Or.inr ⟨(b1 % 4) * 16, by omega, hch⟩
    · exact Or.inl hch
  | [b1, b2], h => by
    have hb1 : b1 < 256 := h b1 (by simp)
    have hb2 : b2 < 256 := h b2 (by simp)
    intro ch hch
    simp [b64EncodeGroups] at hch
    rcases hch with hch | hch | hch | hch
    · exact Or.inr ⟨b1 / 4, by omega, hch⟩
    · exact Or.inr ⟨(b1 % 4) * 16 + b2 / 16, by omega, hch⟩
    · exact Or.inr ⟨(b2 % 16) * 4, by omega, hch⟩
    · exact Or.inl hch
  | b1 :: b2 :: b3 :: rest, h => by
    have hb1 : b1 < 256 := h b1 (by simp)
    have hb2 : b2 < 256 := h b2 (by simp)
    have hb3 : b3 < 256 := h b3 (by simp)
    have hrest : ∀ b ∈ rest, b < 256 := fun b hb => h b (by simp [hb])
    intro ch hch
    have hrec := b64EncodeGroups_mem rest hrest ch
    rw [show b64EncodeGroups (b1 :: b2 :: b3 :: rest) =
      b64Char (b1 / 4) :: b64Char ((b1 % 4) * 16 + b2 / 16) ::
        b64Char ((b2 % 16) * 4 + b3 / 64) :: b64Char (b3 % 64) ::
        b64EncodeGroups rest from rfl] at hch
    simp at hch
    rcases hch with hch | hch | hch | hch | hch
    · exact Or.inr ⟨b1 / 4, by omega, hch⟩
    · exact Or.inr ⟨(b1 % 4) * 16 + b2 / 16, by omega, hch⟩
    · exact Or.inr ⟨(b2 % 16) * 4 + b3 / 64, by omega, hch⟩
    · exact Or.inr ⟨b3 % 64, by omega, hch⟩
    · exact hrec hch

theorem b64EncodeGroups_no_newline (bs : List Nat) (h : ∀ b ∈ bs, b < 256) :
    ∀ ch ∈ b64EncodeGroups bs, ch ≠ 10 ∧ ch ≠ 13 := by
  intro ch hch
  rcases b64EncodeGroups_mem bs h ch hch with hch61 | ⟨v, hv, hche⟩
  · omega
  · have := b64Char_not_special v hv
    omega

theorem b64DecodeGroups_encode : ∀ bs, (∀ b ∈ bs, b < 256) →
    b64DecodeGroups (b64EncodeGroups bs) = some bs
  | [], _ => rfl
  | [b1], h => by
    have hb1 : b1 < 256 := h b1 (by simp)
    have h1 := b64Val_b64Char (b1 / 4) (by omega)
    have h2 := b64Val_b64Char ((b1 % 4) * 16) (by omega)
    simp only [b64EncodeGroups, b64DecodeGroups, h1, h2, if_pos rfl, and_self, if_true]
    simp
    omega
  | [b1, b2], h => by
    have hb1 : b1 < 256 := h b1 (by simp)
    have hb2 : b2 < 256 := h b2 (by simp)
    have h1 := b64Val_b64Char (b1 / 4) (by omega)
    have h2 := b64Val_b64Char ((b1 % 4) * 16 + b2 / 16) (by omega)
    have h3 := b64Val_b64Char ((b2 % 16) * 4) (by omega)
    have hne := (b64Char_not_special ((b2 % 16) * 4) (by omega)).1
    simp only [b64EncodeGroups, b64DecodeGroups, h1, h2, h3, if_neg hne, if_pos rfl]
    simp
    constructor
    · omega
    · omega
  | b1 :: b2 :: b3 :: rest, h => by
    have hb1 : b1 < 256 := h b1 (by simp)
    have hb2 : b2 < 256 := h b2 (by simp)
    have hb3 : b3 < 256 := h b3 (by simp)
    have hrest : ∀ b ∈ rest, b < 256 := fun b hb => h b (by simp [hb])
    have ih := b64DecodeGroups_encode rest hrest
    have h1 := b64Val_b64Char (b1 / 4) (by omega)
    have h2 := b64Val_b64Char ((b1 % 4) * 16 + b2 / 16) (by omega)
    have h3 := b64Val_b64Char ((b2 % 16) * 4 + b3 / 64) (by omega)
    have h4 := b64Val_b64Char (b3 % 64) (by omega)
    have hne3 := (b64Char_not_special ((b2 % 16) * 4 + b3 / 64) (by omega)).1
    have hne4 := (b64Char_not_special (b3 % 64) (by omega)).1
    rw [show b64EncodeGroups (b1 :: b2 :: b3 :: rest) =
      b64Char (b1 / 4) :: b64Char ((b1 % 4) * 16 + b2 / 16) ::
        b64Char ((b2 % 16) * 4 + b3 / 64) :: b64Char (b3 % 64) ::
        b64EncodeGroups rest from rfl]
    simp only [b64DecodeGroups, h1, h2, h3, h4, if_neg hne3, if_neg hne4, ih,
      Option.map_some]
    have e1 : b1 / 4 * 4 + ((b1 % 4) * 16 + b2 / 16) / 16 = b1 := by omega
    have e2 : ((b1 % 4) * 16 + b2 / 16) % 16 * 16 + ((b2 % 16) * 4 + b3 / 64) / 4 = b2 := by
      omega
    have e3 : ((b2 % 16) * 4 + b3 / 64) % 4 * 64 + b3 % 64 = b3 := by omega
    simp [e1, e2, e3]

theorem decodeBase64Std_encode (bs : List Nat) (h : ∀ b ∈ bs, b < 256) :
    decodeBase64Std (b64EncodeGroups bs) = some bs := by
  unfold decodeBase64Std
  have hfilter : (b64EncodeGroups bs).filter (fun c => c != 10 && c != 13) =
      b64EncodeGroups bs := by
    rw [List.filter_eq_self]
    intro a ha
    have := b64EncodeGroups_no_newline bs h a ha
    simp [this.1, this.2]
  rw [hfilter, b64DecodeGroups_encode bs h]

theorem b64EncodeGroups_not_newline (bs : List Nat) (h : ∀ b ∈ bs, b < 256) :
    (10 : Nat) ∉ b64EncodeGroups bs := by
  intro hmem
  exact (b64EncodeGroups_no_newline bs h 10 hmem).1 rfl

/-! ## Helper lemmas: the checkpoint codec -/

theorem unmarshal_of_parts (c : Checkpoint) (data l0 l1 l2 : List Nat)
    (size : Nat) (h836 : List Nat)
    (hsplit : splitN 10 4 data = [l0, l1, l2, []])
    (h0 : l0 ≠ []) (hs : parseUint64 l1 = some size)
    (hh : decodeBase64Std l2 = some h836) :
    Checkpoint.Unmarshal c data = (⟨l0, size, h836⟩, none) := by
  unfold Checkpoint.Unmarshal
  rw [hsplit]
  simp [h0, hs, hh]

theorem splitN_marshal (c : Checkpoint) (horigin : (10 : Nat) ∉ c.Origin)
    (hhash : ∀ b ∈ c.Hash, b < 256) :
    splitN 10 4 (marshalCheckpoint c) =
      [c.Origin, decDigits c.Size, b64EncodeGroups c.Hash, []] := by
  have hshape : marshalCheckpoint c =
      c.Origin ++ 10 :: (decDigits c.Size ++ 10 :: (b64EncodeGroups c.Hash ++ 10 :: [])) := by
    unfold marshalCheckpoint
    simp
  rw [hshape]
  rw [show (4 : Nat) = 2 + 2 from rfl, splitN_cons_of_sep 10 2 _ _ horigin]
  rw [show (2 : Nat) + 1 = 1 + 2 from rfl,
    splitN_cons_of_sep 10 1 _ _ (decDigits_not_newline c.Size)]
  rw [show (1 : Nat) + 1 = 0 + 2 from rfl,
    splitN_cons_of_sep 10 0 _ _ (b64EncodeGroups_not_newline c.Hash hhash)]
  rfl

theorem parseUint64_none (l1 : List Nat)
    (h : ¬(l1 ≠ [] ∧ (∀ ch ∈ l1, isDigit ch = true) ∧ digitsToNat l1 < 2 ^ 64)) :
    parseUint64 l1 = none := by
  unfold parseUint64
  by_cases he : l1.isEmpty
  · simp [he]
  · rw [if_neg he]
    have hne : l1 ≠ [] := by
      cases l1
      · simp at he
      · simp
    by_cases ha : l1.all isDigit
    · rw [if_pos ha]
      have hmem : ∀ ch ∈ l1, isDigit ch = true := List.all_eq_true.mp ha
      have hval : ¬(digitsToNat l1 < 2 ^ 64) := by
        intro hv
        exact h ⟨hne, hmem, hv⟩
      simp only [if_neg hval]
    · rw [if_neg ha]

theorem unmarshal_fst (c : Checkpoint) (data : List Nat) :
    (Checkpoint.Unmarshal c data).1 = c ∨ (Checkpoint.Unmarshal c data).2 = none := by
  unfold Checkpoint.Unmarshal
  split
  · split
    · left; rfl
    · split
      · left; rfl
      · split
        · left; rfl
        · split
          · left; rfl
          · right; rfl
  · left; rfl

/-! ## Helper lemmas: artifact map checking -/

theorem checkArtifacts_result : ∀ (e m : List (List Nat × List Nat)) (r : BundleErr),
    checkArtifacts e m = some r →
    ∃ name, r = .missingArtifact name ∨ r = .wrongArtifactHash name
  | [], _, r => by simp [checkArtifacts]
  | (name, want) :: rest, m, r => by
    simp only [checkArtifacts]
    split
    · intro h
      exact ⟨name, Or.inl (by simp_all)⟩
    · split
      · intro h
        exact ⟨name, Or.inr (by simp_all)⟩
      · exact checkArtifacts_result rest m r

theorem checkArtifacts_none_iff : ∀ (e m : List (List Nat × List Nat)),
    checkArtifacts e m = none ↔ ∀ p ∈ e, lookupBytes m p.1 = some p.2
  | [], m => by simp [checkArtifacts]
  | (name, want) :: rest, m => by
    simp only [checkArtifacts]
    split
    · rename_i hl
      simp only [reduceCtorEq, false_iff]
      intro hall
      have := hall (name, want) (by simp)
      simp [hl] at this
    · rename_i hv hl
      split
      · rename_i hw
        simp only [reduceCtorEq, false_iff]
        intro hall
        have := hall (name, want) (by simp)
        rw [hl] at this
        simp at this
        exact hw this.symm
      · rename_i hw
        rw [checkArtifacts_none_iff rest m]
        push_neg at hw
        constructor
        · intro hrest p hp
          rcases List.mem_cons.mp hp with hp | hp
          · subst hp
            simp [hl, hw]
          · exact hrest p hp
        · intro hall p hp
          exact hall p (List.mem_cons_of_mem _ hp)

/-! ## Helper lemmas: the reconstruction loop -/

theorem foldl_bundleStep_appended (hc : List Nat → List Nat → List Nat)
    (mh : List Nat) (oldCP newCP : Checkpoint) :
    ∀ (lhs : List (List Nat)) (s : RangeState),
      (List.foldl (bundleStep hc mh oldCP newCP) s lhs).appended = s.appended ++ lhs
  | [], s => by simp
  | lh :: rest, s => by
    rw [List.foldl_cons, foldl_bundleStep_appended hc mh oldCP newCP rest]
    simp [bundleStep]

theorem foldl_bundleStep_manifestFound (hc : List Nat → List Nat → List Nat)
    (mh : List Nat) (oldCP newCP : Checkpoint) :
    ∀ (lhs : List (List Nat)) (s : RangeState),
      (List.foldl (bundleStep hc mh oldCP newCP) s lhs).manifestFound =
        (s.manifestFound || lhs.any (fun x => decide (x = mh)))
  | [], s => by simp
  | lh :: rest, s => by
    rw [List.foldl_cons, foldl_bundleStep_manifestFound hc mh oldCP newCP rest]
    have hstep : (bundleStep hc mh oldCP newCP s lh).manifestFound =
        (s.manifestFound || decide (lh = mh)) := by
      by_cases hm : s.manifestFound <;> simp [bundleStep, hm]
    rw [hstep]
    simp [Bool.or_assoc]

theorem foldl_bundleStep_oldCPFound (hc : List Nat → List Nat → List Nat)
    (mh : List Nat) (oldCP newCP : Checkpoint) :
    ∀ (lhs : List (List Nat)) (s : RangeState),
      (List.foldl (bundleStep hc mh oldCP newCP) s lhs).oldCPFound =
        if s.appended.length < oldCP.Size ∧ oldCP.Size ≤ s.appended.length + lhs.length
        then decide (merkleRoot hc ((s.appended ++ lhs).take oldCP.Size) = oldCP.Hash)
        else s.oldCPFound
  | [], s => by
    rw [if_neg (by simp only [List.length_nil]; omega)]
    simp
  | lh :: rest, s => by
    rw [List.foldl_cons, foldl_bundleStep_oldCPFound hc mh oldCP newCP rest]
    have happ : (bundleStep hc mh oldCP newCP s lh).appended = s.appended ++ [lh] := rfl
    have hlen : (bundleStep hc mh oldCP newCP s lh).appended.length =
        s.appended.length + 1 := by simp [happ]
    by_cases hA : s.appended.length + 1 < oldCP.Size ∧
        oldCP.Size ≤ s.appended.length + 1 + rest.length
    · rw [if_pos (by omega : (bundleStep hc mh oldCP newCP s lh).appended.length <
          oldCP.Size ∧ oldCP.Size ≤ (bundleStep hc mh oldCP newCP s lh).appended.length +
          rest.length)]
      rw [if_pos (by simp; omega : s.appended.length < oldCP.Size ∧
          oldCP.Size ≤ s.appended.length + (lh :: rest).length)]
      rw [happ, List.append_assoc, List.singleton_append]
    · rw [if_neg (by omega : ¬((bundleStep hc mh oldCP newCP s lh).appended.length <
          oldCP.Size ∧ oldCP.Size ≤ (bundleStep hc mh oldCP newCP s lh).appended.length +
          rest.length))]
      by_cases hB : s.appended.length + 1 = oldCP.Size
      · have hsf : (bundleStep hc mh oldCP newCP s lh).oldCPFound =
            decide (merkleRoot hc (s.appended ++ [lh]) = oldCP.Hash) := by
          simp only [bundleStep]
          rw [if_pos (by simpa using hB)]
        rw [hsf, if_pos (by simp; omega : s.appended.length < oldCP.Size ∧
            oldCP.Size ≤ s.appended.length + (lh :: rest).length)]
        have htake : (s.appended ++ lh :: rest).take oldCP.Size = s.appended ++ [lh] := by
          rw [← hB, ← List.singleton_append, ← List.append_assoc,
            show s.appended.length + 1 = (s.appended ++ [lh]).length by simp,
            List.take_left]
        rw [htake]
      · have hsf : (bundleStep hc mh oldCP newCP s lh).oldCPFound = s.oldCPFound := by
          simp only [bundleStep]
          rw [if_neg (by simpa using hB)]
        rw [hsf, if_neg (by simp; omega : ¬(s.appended.length < oldCP.Size ∧
            oldCP.Size ≤ s.appended.length + (lh :: rest).length))]

theorem foldl_bundleStep_newCPFound (hc : List Nat → List Nat → List Nat)
    (mh : List Nat) (oldCP newCP : Checkpoint) :
    ∀ (lhs : List (List Nat)) (s : RangeState),
      (List.foldl (bundleStep hc mh oldCP newCP) s lhs).newCPFound =
        if s.appended.length < newCP.Size ∧ newCP.Size ≤ s.appended.length + lhs.length
        then decide (merkleRoot hc ((s.appended ++ lhs).take newCP.Size) = newCP.Hash)
        else s.newCPFound
  | [], s => by
    rw [if_neg (by simp only [List.length_nil]; omega)]
    simp
  | lh :: rest, s => by
    rw [List.foldl_cons, foldl_bundleStep_newCPFound hc mh oldCP newCP rest]
    have happ : (bundleStep hc mh oldCP newCP s lh).appended = s.appended ++ [lh] := rfl
    have hlen : (bundleStep hc mh oldCP newCP s lh).appended.length =
        s.appended.length + 1 := by simp [happ]
    by_cases hA : s.appended.length + 1 < newCP.Size ∧
        newCP.Size ≤ s.appended.length + 1 + rest.length
    · rw [if_pos (by omega : (bundleStep hc mh oldCP newCP s lh).appended.length <
          newCP.Size ∧ newCP.Size ≤ (bundleStep hc mh oldCP newCP s lh).appended.length +
          rest.length)]
      rw [if_pos (by simp; omega : s.appended.length < newCP.Size ∧
          newCP.Size ≤ s.appended.length + (lh :: rest).length)]
      rw [happ, List.append_assoc, List.singleton_append]
    · rw [if_neg (by omega : ¬((bundleStep hc mh oldCP newCP s lh).appended.length <
          newCP.Size ∧ newCP.Size ≤ (bundleStep hc mh oldCP newCP s lh).appended.length +
          rest.length))]
      by_cases hB : s.appended.length + 1 = newCP.Size
      · have hsf : (bundleStep hc mh oldCP newCP s lh).newCPFound =
            decide (merkleRoot hc (s.appended ++ [lh]) = newCP.Hash) := by
          simp only [bundleStep]
          rw [if_pos (by simpa using hB)]
        rw [hsf, if_pos (by simp; omega : s.appended.length < newCP.Size ∧
            newCP.Size ≤ s.appended.length + (lh :: rest).length)]
        have htake : (s.appended ++ lh :: rest).take newCP.Size = s.appended ++ [lh] := by
          rw [← hB, ← List.singleton_append, ← List.append_assoc,
            show s.appended.length + 1 = (s.appended ++ [lh]).length by simp,
            List.take_left]
        rw [htake]
      · have hsf : (bundleStep hc mh oldCP newCP s lh).newCPFound = s.newCPFound := by
          simp only [bundleStep]
          rw [if_neg (by simpa using hB)]
        rw [hsf, if_neg (by simp; omega : ¬(s.appended.length < newCP.Size ∧
            newCP.Size ≤ s.appended.length + (lh :: rest).length))]

/-- `bundleScan`'s `oldCPFound` flag, characterised: it is set exactly
when the tree passed through size `oldCP.Size` (which needs
`1 ≤ oldCP.Size ≤ n`) and at that moment the running root equalled
`oldCP.Hash`. -/
theorem bundleScan_oldCPFound (hc : List Nat → List Nat → List Nat)
    (mh : List Nat) (oldCP newCP : Checkpoint) (lhs : List (List Nat)) :
    (bundleScan hc mh oldCP newCP lhs).oldCPFound =
      if 0 < oldCP.Size ∧ oldCP.Size ≤ lhs.length
      then decide (merkleRoot hc (lhs.take oldCP.Size) = oldCP.Hash)
      else false := by
  unfold bundleScan
  rw [foldl_bundleStep_oldCPFound]
  simp

/-- `bundleScan`'s `newCPFound` flag, characterised. -/
theorem bundleScan_newCPFound (hc : List Nat → List Nat → List Nat)
    (mh : List Nat) (oldCP newCP : Checkpoint) (lhs : List (List Nat)) :
    (bundleScan hc mh oldCP newCP lhs).newCPFound =
      if 0 < newCP.Size ∧ newCP.Size ≤ lhs.length
      then decide (merkleRoot hc (lhs.take newCP.Size) = newCP.Hash)
      else false := by
  unfold bundleScan
  rw [foldl_bundleStep_newCPFound]
  simp

/-- `bundleScan`'s `manifestFound` flag is set exactly when the manifest
hash occurs among the leaf hashes. -/
theorem bundleScan_manifestFound (hc : List Nat → List Nat → List Nat)
    (mh : List Nat) (oldCP newCP : Checkpoint) (lhs : List (List Nat)) :
    (bundleScan hc mh oldCP newCP lhs).manifestFound = true ↔ mh ∈ lhs := by
  unfold bundleScan
  rw [foldl_bundleStep_manifestFound]
  simp

/-! ## Helper lemmas: the monitor loop -/

theorem fromLoop_ok_iff (env : MonitorEnv) (cp : Checkpoint) :
    ∀ (fuel i : Nat), fromLoop env cp fuel i = .ok () ↔
      ∀ j, i ≤ j → j < i + fuel → leafStep env cp j = .ok ()
  | 0, i => by
    simp [fromLoop]
    omega
  | fuel + 1, i => by
    constructor
    · intro hloop j hij hjf
      cases hstep : leafStep env cp i with
      | error e => simp [fromLoop, hstep] at hloop
      | ok u =>
        by_cases hji : j = i
        · subst hji
          cases u
          exact hstep
        · simp only [fromLoop, hstep] at hloop
          exact (fromLoop_ok_iff env cp fuel (i + 1)).mp hloop j (by omega) (by omega)
    · intro hall
      have hstep : leafStep env cp i = .ok () := hall i (by omega) (by omega)
      simp only [fromLoop, hstep]
      exact (fromLoop_ok_iff env cp fuel (i + 1)).mpr
        (fun j hij hjf => hall j (by omega) (by omega))

theorem fromLoop_first_error (env : MonitorEnv) (cp : Checkpoint) :
    ∀ (fuel i j : Nat) (e : MonErr), i ≤ j → j < i + fuel →
      (∀ k, i ≤ k → k < j → leafStep env cp k = .ok ()) →
      leafStep env cp j = .error e →
      fromLoop env cp fuel i = .error e
  | 0, i, j, e => by omega
  | fuel + 1, i, j, e => by
    intro hij hjf hpre herr
    by_cases hji : j = i
    · subst hji
      simp only [fromLoop, herr]
    · have hstep : leafStep env cp i = .ok () := hpre i (by omega) (by omega)
      simp only [fromLoop, hstep]
      exact fromLoop_first_error env cp fuel (i + 1) j e (by omega) (by omega)
        (fun k hk1 hk2 => hpre k (by omega) hk2) herr

/-! ## Claims: the checkpoint codec -/

/-- C7: `Checkpoint.Unmarshal` returns an error for every input that has
fewer than 4 newline-separated segments, or trailing bytes after the
root-hash line's newline, or an empty origin, or a size field that is
not a decimal number / is negative / overflows an unsigned 64-bit
integer, or a root field that is not valid standard base64. -/
theorem C7_unmarshal_rejects_malformed (c : Checkpoint) (data : List Nat)
    (h : (splitN 10 4 data).length < 4 ∨
      ∃ l0 l1 l2 l3, splitN 10 4 data = [l0, l1, l2, l3] ∧
        (l0 = [] ∨
          ¬(l1 ≠ [] ∧ (∀ ch ∈ l1, isDigit ch = true) ∧ digitsToNat l1 < 2 ^ 64) ∨
          decodeBase64Std l2 = none ∨
          l3 ≠ [])) :
    (Checkpoint.Unmarshal c data).2.isSome := by
  rcases h with hlen | ⟨l0, l1, l2, l3, hsplit, hcond⟩
  · unfold Checkpoint.Unmarshal
    split
    · rename_i l0 l1 l2 l3 heq
      rw [heq] at hlen
      simp at hlen
    · simp
  · unfold Checkpoint.Unmarshal
    rw [hsplit]
    dsimp only
    by_cases h0 : l0 = []
    · simp [h0]
    · rw [if_neg h0]
      rcases hcond with hc | hc | hc | hc
      · exact absurd hc h0
      · rw [parseUint64_none l1 hc]
        simp
      · cases hp : parseUint64 l1 with
        | none => simp
        | some size =>
          rw [hc]
          simp
      · cases hp : parseUint64 l1 with
        | none => simp
        | some size =>
          cases hd : decodeBase64Std l2 with
          | none => simp
          | some hh =>
            have hl3 : 0 < l3.length := by
              cases l3
              · exact absurd rfl hc
              · simp
            simp [hl3]

/-- Witness for C7 at the concrete input `"A"` (no newline at all). -/
theorem C7_witness :
    ((splitN 10 4 [65]).length < 4 ∨
      ∃ l0 l1 l2 l3, splitN 10 4 [65] = [l0, l1, l2, l3] ∧
        (l0 = [] ∨
          ¬(l1 ≠ [] ∧ (∀ ch ∈ l1, isDigit ch = true) ∧ digitsToNat l1 < 2 ^ 64) ∨
          decodeBase64Std l2 = none ∨
          l3 ≠ [])) ∧
    (Checkpoint.Unmarshal ⟨[], 0, []⟩ [65]).2.isSome := by
  refine ⟨Or.inl (by decide), ?_⟩
  exact C7_unmarshal_rejects_malformed ⟨[], 0, []⟩ [65] (Or.inl (by decide))

/-- C8: for every well-formed checkpoint `c` (non-empty origin without a
newline, size representable in 64 bits, hash made of bytes),
unmarshalling the serialised form `"{origin}\n{size}\n{base64(root)}\n"`
into any receiver yields exactly `c` with no error: `Unmarshal` after
`Marshal` is the identity. -/
theorem C8_marshal_unmarshal_roundtrip (c₀ c : Checkpoint)
    (h1 : c.Origin ≠ []) (h2 : (10 : Nat) ∉ c.Origin)
    (h3 : c.Size < 2 ^ 64) (h4 : ∀ b ∈ c.Hash, b < 256) :
    Checkpoint.Unmarshal c₀ (marshalCheckpoint c) = (c, none) := by
  exact unmarshal_of_parts c₀ (marshalCheckpoint c) c.Origin (decDigits c.Size)
    (b64EncodeGroups c.Hash) c.Size c.Hash (splitN_marshal c h2 h4) h1
    (parseUint64_decDigits c.Size h3) (decodeBase64Std_encode c.Hash h4)

/-- Witness for C8 at the concrete checkpoint
`(origin "A", size 123, root [1, 2, 3])`. -/
theorem C8_witness :
    Checkpoint.Unmarshal ⟨[], 0, []⟩ (marshalCheckpoint ⟨[65], 123, [1, 2, 3]⟩) =
      (⟨[65], 123, [1, 2, 3]⟩, none) :=
  C8_marshal_unmarshal_roundtrip ⟨[], 0, []⟩ ⟨[65], 123, [1, 2, 3]⟩
    (by decide) (by decide) (by decide) (by decide)

/-- C9: `Checkpoint.Unmarshal` is atomic on failure: whenever it returns
an error, the receiver is left completely unchanged. -/
theorem C9_unmarshal_atomic_on_failure (c : Checkpoint) (data : List Nat)
    (h : (Checkpoint.Unmarshal c data).2.isSome) :
    (Checkpoint.Unmarshal c data).1 = c := by
  rcases unmarshal_fst c data with hfst | hsnd
  · exact hfst
  · rw [hsnd] at h
    simp at h

/-- Witness for C9 at a concrete failing input: receiver `([1], 5, [2])`
and data `"A"` (unmarshal fails, receiver untouched). -/
theorem C9_witness :
    (Checkpoint.Unmarshal ⟨[1], 5, [2]⟩ [65]).2.isSome ∧
      (Checkpoint.Unmarshal ⟨[1], 5, [2]⟩ [65]).1 = ⟨[1], 5, [2]⟩ :=
  ⟨by decide, C9_unmarshal_atomic_on_failure ⟨[1], 5, [2]⟩ [65] (by decide)⟩

/-! ## Claims: the proof-bundle verifier -/

/-- C1: for every proof bundle and every old checkpoint with
`oldCP.Size > 0`, `Bundle` establishes consistency only when the running
root computed after appending exactly `oldCP.Size` leaf hashes equals
`oldCP.Hash`: whenever `Bundle` accepts, the Merkle root of precisely the
first `oldCP.Size` leaf hashes is `oldCP.Hash` (so a match at any other
tree size establishes nothing, and if no such match occurs `Bundle`
returns an error). -/
theorem C1_bundle_old_checkpoint_exact_size (env : CryptoEnv) (pb : ProofBundle)
    (oldCP : Checkpoint) (lv fv : Nat) (arts : List (List Nat × List Nat))
    (origin : List Nat) (hpos : 0 < oldCP.Size)
    (hok : Bundle env pb oldCP lv fv arts origin = none) :
    oldCP.Size ≤ pb.LeafHashes.length ∧
      merkleRoot env.hashChildren (pb.LeafHashes.take oldCP.Size) = oldCP.Hash := by
  unfold Bundle at hok
  cases hopen : env.noteOpen pb.NewCheckpoint lv with
  | none => rw [hopen] at hok; simp at hok
  | some text =>
    rw [hopen] at hok
    dsimp only at hok
    rcases hun : Checkpoint.Unmarshal ⟨[], 0, []⟩ text with ⟨newCP, err⟩
    rw [hun] at hok
    cases err with
    | some e => simp at hok
    | none =>
      dsimp only at hok
      cases horig : originMatches newCP origin with
      | false => rw [horig] at hok; simp at hok
      | true =>
        rw [horig] at hok
        simp only [Bool.not_true, Bool.false_eq_true, if_false] at hok
        by_cases hcount : pb.LeafHashes.length ≠ newCP.Size
        · rw [if_pos hcount] at hok; simp at hok
        · rw [if_neg hcount] at hok
          cases hflag : (bundleScan env.hashChildren (env.hashLeaf pb.FirmwareRelease)
              oldCP newCP pb.LeafHashes).oldCPFound with
          | false =>
            rw [hflag] at hok
            rw [if_pos (by simp [decide_eq_true_eq, hpos])] at hok
            simp at hok
          | true =>
            rw [bundleScan_oldCPFound] at hflag
            by_cases hin : 0 < oldCP.Size ∧ oldCP.Size ≤ pb.LeafHashes.length
            · rw [if_pos hin] at hflag
              exact ⟨hin.2, of_decide_eq_true hflag⟩
            · rw [if_neg hin] at hflag
              simp at hflag

/-- Witness for C1: a concretely accepted bundle, whose first
`oldCP.Size = 1` leaf hashes reconstruct the old root `[1]`. -/
theorem C1_witness :
    0 < oldCP1.Size ∧ Bundle testEnv pbGood oldCP1 0 0 [] [65] = none ∧
      (oldCP1.Size ≤ pbGood.LeafHashes.length ∧
        merkleRoot testEnv.hashChildren (pbGood.LeafHashes.take oldCP1.Size) =
          oldCP1.Hash) :=
  ⟨by decide, by decide,
    C1_bundle_old_checkpoint_exact_size testEnv pbGood oldCP1 0 0 [] [65]
      (by decide) (by decide)⟩

/-- C2: whenever the new-checkpoint note verifies and parses, `Bundle`
requires the parsed checkpoint's origin to equal the caller's expected
origin, and returns the origin-mismatch (bad checkpoint) error whenever
they differ. -/
theorem C2_bundle_origin_check (env : CryptoEnv) (pb : ProofBundle)
    (oldCP : Checkpoint) (lv fv : Nat) (arts : List (List Nat × List Nat))
    (origin text : List Nat) (newCP : Checkpoint)
    (hopen : env.noteOpen pb.NewCheckpoint lv = some text)
    (hparse : Checkpoint.Unmarshal ⟨[], 0, []⟩ text = (newCP, none))
    (hdiff : newCP.Origin ≠ origin) :
    Bundle env pb oldCP lv fv arts origin = some .wrongOrigin := by
  unfold Bundle
  rw [hopen]
  dsimp only
  rw [hparse]
  dsimp only
  have horig : originMatches newCP origin = false := by
    unfold originMatches
    simp [hdiff]
  rw [horig]
  simp

/-- Witness for C2: the accepted bundle submitted against the expected
origin `"B"` instead of its actual `"A"` is rejected with the
origin-mismatch error. -/
theorem C2_witness :
    Bundle testEnv pbGood oldCP1 0 0 [] [66] = some .wrongOrigin :=
  C2_bundle_origin_check testEnv pbGood oldCP1 0 0 [] [66] cpText2
    ⟨[65], 2, [1, 7]⟩ rfl (by decide) (by decide)

/-- C3: whenever the new-checkpoint note verifies, parses, and carries
the expected origin, `Bundle` returns the malformed-bundle error exactly
when the number of leaf hashes differs from the parsed checkpoint's
size; only on equality does it proceed past that check. -/
theorem C3_bundle_leaf_count (env : CryptoEnv) (pb : ProofBundle)
    (oldCP : Checkpoint) (lv fv : Nat) (arts : List (List Nat × List Nat))
    (origin text : List Nat) (newCP : Checkpoint)
    (hopen : env.noteOpen pb.NewCheckpoint lv = some text)
    (hparse : Checkpoint.Unmarshal ⟨[], 0, []⟩ text = (newCP, none))
    (horig : originMatches newCP origin = true) :
    Bundle env pb oldCP lv fv arts origin = some .invalidLeafCount ↔
      pb.LeafHashes.length ≠ newCP.Size := by
  unfold Bundle
  rw [hopen]
  dsimp only
  rw [hparse]
  dsimp only
  rw [horig]
  simp only [Bool.not_true, Bool.false_eq_true, if_false]
  by_cases hcount : pb.LeafHashes.length ≠ newCP.Size
  · rw [if_pos hcount]
    simp [hcount]
  · rw [if_neg hcount]
    simp only [hcount, iff_false]
    intro hcontra
    cases hflag : (bundleScan env.hashChildren (env.hashLeaf pb.FirmwareRelease)
        oldCP newCP pb.LeafHashes).oldCPFound <;> rw [hflag] at hcontra
    · by_cases hsz : 0 < oldCP.Size
      · rw [if_pos (by simp [hsz])] at hcontra
        simp at hcontra
      · rw [if_neg (by simp [hsz])] at hcontra
        cases hnf : (bundleScan env.hashChildren (env.hashLeaf pb.FirmwareRelease)
            oldCP newCP pb.LeafHashes).newCPFound <;> rw [hnf] at hcontra <;>
          simp at hcontra
        · cases hmf : (bundleScan env.hashChildren (env.hashLeaf pb.FirmwareRelease)
              oldCP newCP pb.LeafHashes).manifestFound <;> rw [hmf] at hcontra <;>
            simp at hcontra
          cases hfro : env.noteOpen pb.FirmwareRelease fv <;> rw [hfro] at hcontra <;>
            simp at hcontra
          rename_i frText
          cases hfrp : env.parseRelease frText <;> rw [hfrp] at hcontra <;>
            simp at hcontra
          rename_i fr
          rcases checkArtifacts_result arts fr.ArtifactSHA256 _ hcontra with
            ⟨nm, hr | hr⟩ <;> simp at hr
    · rw [if_neg (by simp)] at hcontra
      cases hnf : (bundleScan env.hashChildren (env.hashLeaf pb.FirmwareRelease)
          oldCP newCP pb.LeafHashes).newCPFound <;> rw [hnf] at hcontra <;>
        simp at hcontra
      · cases hmf : (bundleScan env.hashChildren (env.hashLeaf pb.FirmwareRelease)
            oldCP newCP pb.LeafHashes).manifestFound <;> rw [hmf] at hcontra <;>
          simp at hcontra
        cases hfro : env.noteOpen pb.FirmwareRelease fv <;> rw [hfro] at hcontra <;>
          simp at hcontra
        rename_i frText
        cases hfrp : env.parseRelease frText <;> rw [hfrp] at hcontra <;>
          simp at hcontra
        rename_i fr
        rcases checkArtifacts_result arts fr.ArtifactSHA256 _ hcontra with
          ⟨nm, hr | hr⟩ <;> simp at hr

/-- Witness for C3: one leaf hash against a size-2 checkpoint is
rejected as malformed. -/
theorem C3_witness :
    Bundle testEnv pbShort oldCP1 0 0 [] [65] = some .invalidLeafCount :=
  (C3_bundle_leaf_count testEnv pbShort oldCP1 0 0 [] [65] cpText2
    ⟨[65], 2, [1, 7]⟩ rfl (by decide) (by decide)).mpr (by decide)

/-- C4: `Bundle` succeeds only if the leaf hash of `pb.FirmwareRelease`
occurs somewhere in `pb.LeafHashes` (first conjunct); the loop's
`manifestFound` flag is set exactly when the hash occurs at all, so with
duplicates the first occurrence satisfies inclusion and later ones
change nothing (second conjunct); and when every earlier check passes
but the hash occurs nowhere, `Bundle` returns the inclusion error
(third conjunct). -/
theorem C4_bundle_manifest_inclusion (env : CryptoEnv) (pb : ProofBundle)
    (oldCP : Checkpoint) (lv fv : Nat) (arts : List (List Nat × List Nat))
    (origin : List Nat) :
    (Bundle env pb oldCP lv fv arts origin = none →
      env.hashLeaf pb.FirmwareRelease ∈ pb.LeafHashes) ∧
    (∀ old' new' : Checkpoint,
      (bundleScan env.hashChildren (env.hashLeaf pb.FirmwareRelease) old' new'
        pb.LeafHashes).manifestFound = true ↔
          env.hashLeaf pb.FirmwareRelease ∈ pb.LeafHashes) ∧
    (∀ (text : List Nat) (newCP : Checkpoint),
      env.noteOpen pb.NewCheckpoint lv = some text →
      Checkpoint.Unmarshal ⟨[], 0, []⟩ text = (newCP, none) →
      originMatches newCP origin = true →
      pb.LeafHashes.length = newCP.Size →
      ((bundleScan env.hashChildren (env.hashLeaf pb.FirmwareRelease) oldCP newCP
          pb.LeafHashes).oldCPFound = true ∨ oldCP.Size = 0) →
      (bundleScan env.hashChildren (env.hashLeaf pb.FirmwareRelease) oldCP newCP
          pb.LeafHashes).newCPFound = true →
      env.hashLeaf pb.FirmwareRelease ∉ pb.LeafHashes →
      Bundle env pb oldCP lv fv arts origin = some .inclusionManifest) := by
  refine ⟨?_, ?_, ?_⟩
  · intro hok
    unfold Bundle at hok
    cases hopen : env.noteOpen pb.NewCheckpoint lv with
    | none => rw [hopen] at hok; simp at hok
    | some text =>
      rw [hopen] at hok
      dsimp only at hok
      rcases hun : Checkpoint.Unmarshal ⟨[], 0, []⟩ text with ⟨newCP, err⟩
      rw [hun] at hok
      cases err with
      | some e => simp at hok
      | none =>
        dsimp only at hok
        cases horig : originMatches newCP origin with
        | false => rw [horig] at hok; simp at hok
        | true =>
          rw [horig] at hok
          simp only [Bool.not_true, Bool.false_eq_true, if_false] at hok
          by_cases hcount : pb.LeafHashes.length ≠ newCP.Size
          · rw [if_pos hcount] at hok; simp at hok
          · rw [if_neg hcount] at hok
            cases hmf : (bundleScan env.hashChildren (env.hashLeaf pb.FirmwareRelease)
                oldCP newCP pb.LeafHashes).manifestFound with
            | true =>
              exact (bundleScan_manifestFound env.hashChildren
                (env.hashLeaf pb.FirmwareRelease) oldCP newCP pb.LeafHashes).mp hmf
            | false =>
              cases hof : (bundleScan env.hashChildren (env.hashLeaf pb.FirmwareRelease)
                  oldCP newCP pb.LeafHashes).oldCPFound <;> rw [hof] at hok
              · by_cases hsz : 0 < oldCP.Size
                · rw [if_pos (by simp [hsz])] at hok
                  simp at hok
                · rw [if_neg (by simp [hsz])] at hok
                  cases hnf : (bundleScan env.hashChildren
                      (env.hashLeaf pb.FirmwareRelease) oldCP newCP
                      pb.LeafHashes).newCPFound <;> rw [hnf] at hok <;>
                    simp at hok
                  rw [hmf] at hok
                  simp at hok
              · rw [if_neg (by simp)] at hok
                cases hnf : (bundleScan env.hashChildren
                    (env.hashLeaf pb.FirmwareRelease) oldCP newCP
                    pb.LeafHashes).newCPFound <;> rw [hnf] at hok <;>
                  simp at hok
                rw [hmf] at hok
                simp at hok
  · intro old' new'
    exact bundleScan_manifestFound env.hashChildren (env.hashLeaf pb.FirmwareRelease)
      old' new' pb.LeafHashes
  · intro text newCP hopen hparse horig hcount hold hnew hnotin
    unfold Bundle
    rw [hopen]
    dsimp only
    rw [hparse]
    dsimp only
    rw [horig]
    simp only [Bool.not_true, Bool.false_eq_true, if_false]
    rw [if_neg (by omega : ¬pb.LeafHashes.length ≠ newCP.Size)]
    have hmf : (bundleScan env.hashChildren (env.hashLeaf pb.FirmwareRelease) oldCP
        newCP pb.LeafHashes).manifestFound = false := by
      cases hx : (bundleScan env.hashChildren (env.hashLeaf pb.FirmwareRelease) oldCP
          newCP pb.LeafHashes).manifestFound
      · rfl
      · exact absurd ((bundleScan_manifestFound env.hashChildren
          (env.hashLeaf pb.FirmwareRelease) oldCP newCP pb.LeafHashes).mp hx) hnotin
    rcases hold with hold | hold
    · rw [hold, if_neg (by simp), hnew]
      simp only [Bool.not_true, Bool.false_eq_true, if_false]
      rw [hmf]
      simp
    · rw [if_neg (by simp [hold]), hnew]
      simp only [Bool.not_true, Bool.false_eq_true, if_false]
      rw [hmf]
      simp

/-- Witness for C4: the bundle whose release hashes to `[9]`, absent
from the leaf hashes, is rejected with the inclusion error. -/
theorem C4_witness :
    Bundle testEnv pbNoManifest oldCP1 0 0 [] [65] = some .inclusionManifest :=
  (C4_bundle_manifest_inclusion testEnv pbNoManifest oldCP1 0 0 [] [65]).2.2
    cpText2 ⟨[65], 2, [1, 7]⟩ rfl (by decide) (by decide) (by decide)
    (Or.inl (by decide)) (by decide) (by decide)

/-- C5: when every signature and Merkle check passes and the release
parses, `Bundle` accepts if and only if every `(name, hash)` pair the
caller expects is present in the manifest's `artifact_sha256` map with a
byte-identical digest; manifest artifacts the caller does not mention
never cause rejection. -/
theorem C5_bundle_artifact_subset (env : CryptoEnv) (pb : ProofBundle)
    (oldCP : Checkpoint) (lv fv : Nat) (arts : List (List Nat × List Nat))
    (origin text : List Nat) (newCP : Checkpoint) (frText : List Nat)
    (fr : FirmwareRelease)
    (hopen : env.noteOpen pb.NewCheckpoint lv = some text)
    (hparse : Checkpoint.Unmarshal ⟨[], 0, []⟩ text = (newCP, none))
    (horig : originMatches newCP origin = true)
    (hcount : pb.LeafHashes.length = newCP.Size)
    (hold : (bundleScan env.hashChildren (env.hashLeaf pb.FirmwareRelease) oldCP newCP
        pb.LeafHashes).oldCPFound = true ∨ oldCP.Size = 0)
    (hnew : (bundleScan env.hashChildren (env.hashLeaf pb.FirmwareRelease) oldCP newCP
        pb.LeafHashes).newCPFound = true)
    (hman : (bundleScan env.hashChildren (env.hashLeaf pb.FirmwareRelease) oldCP newCP
        pb.LeafHashes).manifestFound = true)
    (hfropen : env.noteOpen pb.FirmwareRelease fv = some frText)
    (hfrparse : env.parseRelease frText = some fr) :
    Bundle env pb oldCP lv fv arts origin = none ↔
      ∀ p ∈ arts, lookupBytes fr.ArtifactSHA256 p.1 = some p.2 := by
  unfold Bundle
  rw [hopen]
  dsimp only
  rw [hparse]
  dsimp only
  rw [horig]
  simp only [Bool.not_true, Bool.false_eq_true, if_false]
  rw [if_neg (by omega : ¬pb.LeafHashes.length ≠ newCP.Size)]
  have hskip : ∀ r : Option BundleErr,
      (if (!(bundleScan env.hashChildren (env.hashLeaf pb.FirmwareRelease) oldCP newCP
          pb.LeafHashes).oldCPFound && decide (0 < oldCP.Size)) = true
        then some BundleErr.consistencyOldCP else r) = r := by
    intro r
    rcases hold with hold | hold
    · rw [hold]
      simp
    · simp [hold]
  rw [hskip, hnew]
  simp only [Bool.not_true, Bool.false_eq_true, if_false]
  rw [hman]
  simp only [Bool.not_true, Bool.false_eq_true, if_false]
  rw [hfropen]
  dsimp only
  rw [hfrparse]
  dsimp only
  exact checkArtifacts_none_iff arts fr.ArtifactSHA256

/-- Witness for C5: the manifest commits to `[1] ↦ [5]` and `[2] ↦ [6]`,
the caller expects only `[1] ↦ [5]`, and the bundle is accepted. -/
theorem C5_witness :
    Bundle testEnvArtifacts pbGood oldCP1 0 0 [([1], [5])] [65] = none :=
  (C5_bundle_artifact_subset testEnvArtifacts pbGood oldCP1 0 0 [([1], [5])] [65]
    cpText2 ⟨[65], 2, [1, 7]⟩ [7]
    { emptyRelease with ArtifactSHA256 := [([1], [5]), ([2], [6])] }
    rfl (by decide) (by decide) (by decide) (Or.inl (by decide)) (by decide)
    (by decide) rfl rfl).mpr (by decide)

/-- C10: `Bundle` never accepts a bundle whose verified new checkpoint
has size 0: either the leaf-hash count differs from 0 (malformed), or
the reconstruction loop never runs, the new checkpoint's root is never
matched, and an error is returned — regardless of every other input,
including `oldCP.Size = 0`. -/
theorem C10_bundle_rejects_size_zero (env : CryptoEnv) (pb : ProofBundle)
    (oldCP : Checkpoint) (lv fv : Nat) (arts : List (List Nat × List Nat))
    (origin text : List Nat) (newCP : Checkpoint)
    (hopen : env.noteOpen pb.NewCheckpoint lv = some text)
    (hparse : Checkpoint.Unmarshal ⟨[], 0, []⟩ text = (newCP, none))
    (hzero : newCP.Size = 0) :
    (Bundle env pb oldCP lv fv arts origin).isSome := by
  unfold Bundle
  rw [hopen]
  dsimp only
  rw [hparse]
  dsimp only
  cases horig : originMatches newCP origin with
  | false => simp
  | true =>
    simp only [Bool.not_true, Bool.false_eq_true, if_false]
    by_cases hcount : pb.LeafHashes.length ≠ newCP.Size
    · rw [if_pos hcount]
      simp
    · rw [if_neg hcount]
      have hnil : pb.LeafHashes = [] := by
        have : pb.LeafHashes.length = 0 := by omega
        exact List.length_eq_zero.mp this
      have hnf : (bundleScan env.hashChildren (env.hashLeaf pb.FirmwareRelease) oldCP
          newCP pb.LeafHashes).newCPFound = false := by
        rw [hnil]
        rfl
      cases hof : (bundleScan env.hashChildren (env.hashLeaf pb.FirmwareRelease) oldCP
          newCP pb.LeafHashes).oldCPFound
      · by_cases hsz : 0 < oldCP.Size
        · rw [if_pos (by simp [hsz])]
          simp
        · rw [if_neg (by simp [hsz]), hnf]
          simp
      · rw [if_neg (by simp), hnf]
        simp

/-- Witness for C10: the size-0 checkpoint bundle with an empty leaf
list and a zero old checkpoint is rejected. -/
theorem C10_witness :
    (Bundle testEnv pbEmpty oldCP0 0 0 [] [65]).isSome :=
  C10_bundle_rejects_size_zero testEnv pbEmpty oldCP0 0 0 [] [65] cpText0
    ⟨[65], 0, []⟩ rfl (by decide) rfl

/-! ## Claims: the monitor loop -/

/-- C6: within a single `Monitor.From(start)` call the state file is
written only after `leafStep` (fetch, inclusion verification, note
opening, release parsing, and the handler) succeeded for every index in
`[start, latest.Size)` (first conjunct), and if the first failing index
returns an error then `From` propagates exactly that error and the
state file is not written (second conjunct). -/
theorem C6_monitor_from_writes_only_after_success (m : Monitor) (env : MonitorEnv)
    (start : Nat) :
    ((m.From env start).2 ≠ none ↔
      env.newProofBuilder = .ok () ∧
      ∀ i, start ≤ i → i < m.latestConsistent.Size →
        leafStep env m.latestConsistent i = .ok ()) ∧
    (∀ (i : Nat) (e : MonErr), start ≤ i → i < m.latestConsistent.Size →
      (∀ j, start ≤ j → j < i → leafStep env m.latestConsistent j = .ok ()) →
      leafStep env m.latestConsistent i = .error e →
      env.newProofBuilder = .ok () →
      (m.From env start).1 = some e ∧ (m.From env start).2 = none) := by
  constructor
  · unfold Monitor.From
    cases hpb : env.newProofBuilder with
    | error e =>
      dsimp only
      simp only [ne_eq, not_true_eq_false, false_iff, not_and]
      intro hcontra
      simp at hcontra
    | ok u =>
      cases u
      dsimp only
      cases hloop : fromLoop env m.latestConsistent (m.latestConsistent.Size - start)
          start with
      | error e =>
        dsimp only
        simp only [ne_eq, not_true_eq_false, false_iff, not_and]
        intro _ hall
        have : fromLoop env m.latestConsistent (m.latestConsistent.Size - start)
            start = .ok () :=
          (fromLoop_ok_iff env m.latestConsistent _ start).mpr
            (fun j hj1 hj2 => hall j hj1 (by omega))
        rw [hloop] at this
        simp at this
      | ok u =>
        cases u
        dsimp only
        have hall : ∀ i, start ≤ i → i < m.latestConsistent.Size →
            leafStep env m.latestConsistent i = .ok () := by
          intro i hi1 hi2
          exact (fromLoop_ok_iff env m.latestConsistent _ start).mp hloop i hi1
            (by omega)
        cases hw : env.writeFile m.latestConsistentRaw with
        | error ew =>
          dsimp only
          simp only [ne_eq, reduceCtorEq, not_false_eq_true, true_iff]
          exact ⟨trivial, hall⟩
        | ok uw =>
          dsimp only
          simp only [ne_eq, reduceCtorEq, not_false_eq_true, true_iff]
          exact ⟨trivial, hall⟩
  · intro i e hi1 hi2 hpre herr hpb
    unfold Monitor.From
    rw [hpb]
    dsimp only
    have hloop : fromLoop env m.latestConsistent (m.latestConsistent.Size - start)
        start = .error e :=
      fromLoop_first_error env m.latestConsistent _ start i e hi1 (by omega) hpre herr
    rw [hloop]
    dsimp only
    exact ⟨rfl, rfl⟩

/-- Witness for C6: with a handler that always fails, `From` propagates
the handler error and never writes the state file. -/
theorem C6_witness :
    (monitor1.From monEnvHandlerFails 0).1 = some (.handler 7) ∧
      (monitor1.From monEnvHandlerFails 0).2 = none :=
  (C6_monitor_from_writes_only_after_success monitor1 monEnvHandlerFails 0).2
    0 (.handler 7) (Nat.le_refl 0) (by decide)
    (fun j _ hj => absurd hj (by omega)) rfl rfl

end ArmoryDriveLog
